import Mathlib

/-!
Shallow embedding of `src/input.py` (class `GenericPDFFormExtractor`), a
heuristic PDF-form field extractor.  The PDF parsing boundary (pdfplumber)
is external: a page is modelled as the text returned by
`page.extract_text()` together with the cell matrices returned by
`page.extract_tables()`.  All string computation is done on `List Char`
(Python strings are sequences of code points) and wrapped into `String`
at the record boundaries.

Character-level primitives (`str.lower`, `str.strip`, the regex classes
`\w` and `\s`) are modelled on the ASCII and Latin-1 ranges, which cover
the character set this program's regexes single out (the source keeps
`À-ÿ` explicitly); outside those ranges the model treats a
character as caseless and as a non-word character.
-/

namespace PdfForm

/-- Python regex `\s` / `str.strip()` whitespace (code point values):
ASCII whitespace, the separator controls, and the Unicode space
characters. -/
def pyIsSpaceN (n : Nat) : Bool :=
  n = 0x20 || n = 0x9 || n = 0xa || n = 0xb || n = 0xc || n = 0xd ||
  (0x1c ≤ n && n ≤ 0x1f) || n = 0x85 || n = 0xa0 || n = 0x1680 ||
  (0x2000 ≤ n && n ≤ 0x200a) || n = 0x2028 || n = 0x2029 || n = 0x202f ||
  n = 0x205f || n = 0x3000

def pyIsSpace (c : Char) : Bool := pyIsSpaceN c.toNat

/-- ASCII alphanumeric (`[0-9A-Za-z]`), on code point values. -/
def pyIsAsciiAlnumN (n : Nat) : Bool :=
  (0x30 ≤ n && n ≤ 0x39) || (0x41 ≤ n && n ≤ 0x5a) || (0x61 ≤ n && n ≤ 0x7a)

/-- Python regex `\w` on the ASCII + Latin-1 fragment: ASCII alphanumerics,
underscore, the Latin-1 letter/numeric signs (ª ² ³ µ ¹ º ¼ ½ ¾) and the
accented letters `À-ÿ` minus the two operators × (0xd7) and
÷ (0xf7). -/
def pyIsWordN (n : Nat) : Bool :=
  pyIsAsciiAlnumN n || n = 0x5f ||
  n = 0xaa || n = 0xb2 || n = 0xb3 || n = 0xb5 || n = 0xb9 || n = 0xba ||
  n = 0xbc || n = 0xbd || n = 0xbe ||
  (0xc0 ≤ n && n ≤ 0xff && n ≠ 0xd7 && n ≠ 0xf7)

def pyIsWord (c : Char) : Bool := pyIsWordN c.toNat

/-- Membership in the character class of `re.sub(r'[^\w\sÀ-ÿ]', ' ', text)`:
a character survives iff it is a word character, whitespace, or in `À-ÿ`. -/
def keptCharN (n : Nat) : Bool :=
  pyIsWordN n || pyIsSpaceN n || (0xc0 ≤ n && n ≤ 0xff)

def keptChar (c : Char) : Bool := keptCharN c.toNat

/-- Python `str.lower` on the ASCII + Latin-1 fragment: `A-Z` and the
Latin-1 capitals `À-Þ` (except ×) shift down by 0x20; everything else is
fixed. -/
def pyLowerChar (c : Char) : Char :=
  let n := c.toNat
  if 0x41 ≤ n ∧ n ≤ 0x5a then Char.ofNat (n + 0x20)
  else if 0xc0 ≤ n ∧ n ≤ 0xde ∧ n ≠ 0xd7 then Char.ofNat (n + 0x20)
  else c

/-- Lowercase cased letter on the ASCII + Latin-1 fragment (for `str.isupper`). -/
def pyIsLowerAlpha (c : Char) : Bool :=
  let n := c.toNat
  (0x61 ≤ n && n ≤ 0x7a) || n = 0xaa || n = 0xb5 || n = 0xba ||
  (0xdf ≤ n && n ≤ 0xff && n ≠ 0xf7)

/-- Uppercase cased letter on the ASCII + Latin-1 fragment. -/
def pyIsUpperAlpha (c : Char) : Bool :=
  let n := c.toNat
  (0x41 ≤ n && n ≤ 0x5a) || (0xc0 ≤ n && n ≤ 0xde && n ≠ 0xd7)

/-- The code point of `pyLowerChar c` as a function of the code point of
`c`. -/
def pyLowerN (n : Nat) : Nat :=
  if 0x41 ≤ n ∧ n ≤ 0x5a then n + 0x20
  else if 0xc0 ≤ n ∧ n ≤ 0xde ∧ n ≠ 0xd7 then n + 0x20
  else n

/-- Python `str.isupper`: at least one cased character, and no lowercase
character. -/
def pyIsUpperStr (l : List Char) : Bool :=
  l.any (fun c => pyIsLowerAlpha c || pyIsUpperAlpha c) &&
  l.all (fun c => !pyIsLowerAlpha c)

/-- Python `str.strip()`: drop whitespace from both ends. -/
def pyStripList (l : List Char) : List Char :=
  ((l.dropWhile pyIsSpace).reverse.dropWhile pyIsSpace).reverse

/-- `re.sub(r'\s+', '_', text)`: each maximal whitespace run becomes one
underscore.  A whitespace character is dropped when the next character is
also whitespace; the single `'_'` is emitted at the end of the run. -/
def subWs : List Char → List Char
  | [] => []
  | [c] => if pyIsSpace c then ['_'] else [c]
  | c :: c2 :: rest =>
    if pyIsSpace c then
      (if pyIsSpace c2 then subWs (c2 :: rest) else '_' :: subWs (c2 :: rest))
    else c :: subWs (c2 :: rest)

/-- Python `str.strip('_')`. -/
def stripUnderscore (l : List Char) : List Char :=
  ((l.dropWhile (fun c => c = '_')).reverse.dropWhile (fun c => c = '_')).reverse

/-- `clean_field_name` (src/input.py lines 91-103) on `List Char`:
strip the characters outside `[\w\sÀ-ÿ]` to spaces, lowercase,
strip surrounding whitespace, collapse whitespace runs to `'_'`, strip
surrounding underscores. -/
def cleanList (l : List Char) : List Char :=
  stripUnderscore (subWs (pyStripList ((l.map
    (fun c => if keptChar c then c else ' ')).map pyLowerChar)))

/-- `GenericPDFFormExtractor.clean_field_name`. -/
def clean_field_name (text : String) : String :=
  String.mk (cleanList text.data)

/-- Python substring containment `w in l`: `w` occurs contiguously in `l`. -/
def containsSub (w : List Char) : List Char → Bool
  | [] => w.isEmpty
  | c :: rest => w.isPrefixOf (c :: rest) || containsSub w rest

/-- `GenericPDFFormExtractor.determine_field_type` (lines 68-89): keyword
checks on the lowercased label, tried in the order date → number →
checkbox, defaulting to `"text"`.  `word in label_lower` is substring
containment. -/
def determine_field_type (label : String) : String :=
  let ll := label.data.map pyLowerChar
  if (["fecha", "date", "día", "mes", "año", "nacimiento"].map
      String.data).any (fun w => containsSub w ll) then "date"
  else if (["cantidad", "número", "monto", "total", "edad", "peso", "talla",
      "teléfono", "telefono", "móvil", "movil", "fuma", "consume"].map
      String.data).any (fun w => containsSub w ll) then "number"
  else if (["sí/no", "si/no", "yes/no", "acepta"].map
      String.data).any (fun w => containsSub w ll) then "checkbox"
  else "text"

/-! ### Regex scanners

Each of the six regular expressions of `detect_checkbox_groups` and
`detect_text_fields` is compiled by hand into a left-to-right scanner with
the exact `re.finditer` semantics (leftmost match, greedy quantifiers,
resume after the end of each match).  Each scanner carries a fuel argument
for structural termination; every recursive call consumes at least one
input character, so `l.length + 1` fuel is always enough. -/

/-- One glyph alternative of `(?:□|\[ \]|\(\s*\))`, tried in pattern order;
returns the rest of the input after the glyph. -/
def matchGlyph : List Char → Option (List Char)
  | '□' :: r => some r
  | '[' :: ' ' :: ']' :: r => some r
  | '(' :: r =>
    match r.dropWhile pyIsSpace with
    | ')' :: r2 => some r2
    | _ => none
  | _ => none

/-- The characters excluded from the checkbox label group `[^\n□\[\]\(\)]`. -/
def cbStop (c : Char) : Bool :=
  c = '\n' || c = '□' || c = '[' || c = ']' || c = '(' || c = ')'

/-- `re.finditer(r'(?:□|\[ \]|\(\s*\))\s*([^\n□\[\]\(\)]+)', text)`,
returning the captured groups.  After a glyph, `\s*` greedily takes the
whitespace run and the group takes the following run of allowed
characters; if that run is empty the engine backtracks one whitespace
character into the group, and if there is none the match attempt fails
and scanning resumes one character later. -/
def cbScanF : Nat → List Char → List (List Char)
  | 0, _ => []
  | _ + 1, [] => []
  | fuel + 1, c :: rest =>
    match matchGlyph (c :: rest) with
    | some r =>
      let w := r.takeWhile pyIsSpace
      let r2 := r.dropWhile pyIsSpace
      let g := r2.takeWhile (fun x => !cbStop x)
      if g.isEmpty then
        match w.getLast? with
        | some wc => [wc] :: cbScanF fuel r2
        | none => cbScanF fuel rest
      else g :: cbScanF fuel (r2.drop g.length)
    | none => cbScanF fuel rest

/-- `re.finditer(r'([^:\n]+):\s*([^\n]*)', text)`: group 1 runs to the
first `':'`/`'\n'` stop character, which must be a `':'`; `\s*` then eats
whitespace (it may cross line breaks) and group 2 runs to the end of the
line. -/
def p1ScanF : Nat → List Char → List (List Char × List Char)
  | 0, _ => []
  | _ + 1, [] => []
  | fuel + 1, c :: rest =>
    if c = ':' || c = '\n' then p1ScanF fuel rest
    else
      let seg := (c :: rest).takeWhile (fun x => !(x = ':' || x = '\n'))
      match (c :: rest).drop seg.length with
      | ':' :: r2 =>
        let afterWs := r2.dropWhile pyIsSpace
        let g2 := afterWs.takeWhile (fun x => x ≠ '\n')
        (seg, g2) :: p1ScanF fuel (afterWs.drop g2.length)
      | _ :: r2 => p1ScanF fuel r2
      | [] => []

/-- `re.finditer(r'([^_\n]+)_{3,}', text)`: group 1 runs to the first
`'_'`/`'\n'` stop character, which must start a run of at least three
underscores; the greedy `_{3,}` consumes the whole run. -/
def p2ScanF : Nat → List Char → List (List Char)
  | 0, _ => []
  | _ + 1, [] => []
  | fuel + 1, c :: rest =>
    if c = '_' || c = '\n' then p2ScanF fuel rest
    else
      let seg := (c :: rest).takeWhile (fun x => !(x = '_' || x = '\n'))
      match (c :: rest).drop seg.length with
      | '_' :: r2 =>
        let run := ('_' :: r2).takeWhile (fun x => x = '_')
        if 3 ≤ run.length then seg :: p2ScanF fuel (('_' :: r2).drop run.length)
        else p2ScanF fuel (('_' :: r2).drop run.length)
      | _ :: r2 => p2ScanF fuel r2
      | [] => []

/-- `re.finditer(r'\(([^)]+)\)', text)`: a literal `'('`, a nonempty run
of non-`')'` characters (which may include further `'('`), and the first
following `')'`. -/
def p3ScanF : Nat → List Char → List (List Char)
  | 0, _ => []
  | _ + 1, [] => []
  | fuel + 1, c :: rest =>
    if c = '(' then
      let g := rest.takeWhile (fun x => x ≠ ')')
      match rest.drop g.length with
      | ')' :: r2 => if g.isEmpty then p3ScanF fuel rest else g :: p3ScanF fuel r2
      | _ => p3ScanF fuel rest
    else p3ScanF fuel rest

/-- `re.finditer(r'([^[\n]+)\[\s*\]', text)`: group 1 runs to the first
`'['`/`'\n'` stop character, which must be a `'['` followed by optional
whitespace and `']'`. -/
def p4ScanF : Nat → List Char → List (List Char)
  | 0, _ => []
  | _ + 1, [] => []
  | fuel + 1, c :: rest =>
    if c = '[' || c = '\n' then p4ScanF fuel rest
    else
      let seg := (c :: rest).takeWhile (fun x => !(x = '[' || x = '\n'))
      match (c :: rest).drop seg.length with
      | '[' :: r2 =>
        match r2.dropWhile pyIsSpace with
        | ']' :: r3 => seg :: p4ScanF fuel r3
        | _ => p4ScanF fuel r2
      | _ :: r2 => p4ScanF fuel r2
      | [] => []

/-- The literal alternatives of pattern 5, in order (all first letters are
distinct, so at most one can match at a position); returns the rest of the
input after the matched word. -/
def matchP5Word (l : List Char) : Option (List Char) :=
  if ("Nombre".data).isPrefixOf l then some (l.drop 6)
  else if ("Apellido".data).isPrefixOf l then some (l.drop 8)
  else if ("Dirección".data).isPrefixOf l then some (l.drop 9)
  else if ("Teléfono".data).isPrefixOf l then some (l.drop 8)
  else if ("Email".data).isPrefixOf l then some (l.drop 5)
  else if ("Correo".data).isPrefixOf l then some (l.drop 6)
  else none

/-- `re.finditer(r'(?:Nombre|Apellido|Dirección|Teléfono|Email|Correo)(?:\s*:)?\s*([^\n]*)', text)`:
the greedy optional `(?:\s*:)?` matches exactly when the first non-space
character after the word is `':'`; the following `\s*` then eats the next
whitespace run, and the single group runs to the end of the line. -/
def p5ScanF : Nat → List Char → List (List Char)
  | 0, _ => []
  | _ + 1, [] => []
  | fuel + 1, c :: rest =>
    match matchP5Word (c :: rest) with
    | some afterW =>
      let pos :=
        match afterW.dropWhile pyIsSpace with
        | ':' :: r2 => r2.dropWhile pyIsSpace
        | _ => afterW.dropWhile pyIsSpace
      let g := pos.takeWhile (fun x => x ≠ '\n')
      g :: p5ScanF fuel (pos.drop g.length)
    | none => p5ScanF fuel rest

def cbScan (l : List Char) : List (List Char) := cbScanF (l.length + 1) l
def p1Scan (l : List Char) : List (List Char × List Char) := p1ScanF (l.length + 1) l
def p2Scan (l : List Char) : List (List Char) := p2ScanF (l.length + 1) l
def p3Scan (l : List Char) : List (List Char) := p3ScanF (l.length + 1) l
def p4Scan (l : List Char) : List (List Char) := p4ScanF (l.length + 1) l
def p5Scan (l : List Char) : List (List Char) := p5ScanF (l.length + 1) l

/-! ### Data model -/

/-- The `"value"` entry of a field dict: a string, a boolean, or Python
`None`. -/
inductive FieldValue where
  | str (s : String)
  | bool (b : Bool)
  | null
deriving DecidableEq, Repr

/-- A field dict as built by the extractor.  The optional `"section"` key
is `none` when the key is absent.  (The code never creates any other key;
in particular there is no table-column key.) -/
structure Field where
  label : String
  type : String
  value : FieldValue
  sec : Option String
deriving DecidableEq, Repr

/-- `GenericPDFFormExtractor.detect_checkbox_groups` (lines 12-30): every
regex match whose stripped group is nonempty becomes a checkbox field
with value `False` (and no section key). -/
def detect_checkbox_groups (text : String) : List Field :=
  (cbScan text.data).filterMap fun g =>
    let label := pyStripList g
    if label.isEmpty then none
    else some ⟨String.mk (cleanList label), "checkbox", .bool false, none⟩

/-- The per-match body of `detect_text_fields` (lines 54-64): strip the
raw label, drop it if empty or if it contains one of `□[]()`, classify
by `determine_field_type`, and keep the stripped value only for type
`"text"` (otherwise the value is `None`).  Patterns with a single group
pass `[]` as the raw value, matching the `""` default. -/
def mkTextField (rawLabel rawValue : List Char) : Option Field :=
  let label := pyStripList rawLabel
  if label.isEmpty then none
  else if label.any (fun c => c = '□' || c = '[' || c = ']' || c = '(' || c = ')') then none
  else
    let ft := determine_field_type (String.mk label)
    some ⟨String.mk (cleanList label), ft,
      if ft = "text" then .str (String.mk (pyStripList rawValue)) else .null, none⟩

/-- `GenericPDFFormExtractor.detect_text_fields` (lines 32-66): all five
patterns are applied in order, and every match of every pattern is
offered to `mkTextField`; the results are concatenated in pattern order. -/
def detect_text_fields (text : String) : List Field :=
  ((p1Scan text.data).filterMap fun p => mkTextField p.1 p.2)
  ++ ((p2Scan text.data).filterMap fun g => mkTextField g [])
  ++ ((p3Scan text.data).filterMap fun g => mkTextField g [])
  ++ ((p4Scan text.data).filterMap fun g => mkTextField g [])
  ++ ((p5Scan text.data).filterMap fun g => mkTextField g [])

/-- `GenericPDFFormExtractor.deduplicate_fields` key (lines 209-211):
`label_type`, with `_section` appended when the section key is present. -/
def field_key (f : Field) : String :=
  f.label ++ "_" ++ f.type ++ (match f.sec with | some s => "_" ++ s | none => "")

/-- The loop of `deduplicate_fields`, with the `seen` set as a list of
keys. -/
def dedupAux (seen : List String) : List Field → List Field
  | [] => []
  | f :: rest =>
    if field_key f ∈ seen then dedupAux seen rest
    else f :: dedupAux (field_key f :: seen) rest

/-- `GenericPDFFormExtractor.deduplicate_fields` (lines 200-217): keep the
first occurrence of each key, preserving order. -/
def deduplicate_fields (fields : List Field) : List Field :=
  dedupAux [] fields

/-! ### Orchestrator -/

/-- One page as supplied by the external PDF parser: the extracted text
(`page.extract_text() or ""`) and the extracted tables, each a list of
rows of optional cells. -/
structure Page where
  text : String
  tables : List (List (List (Option String)))

/-- The `metadata` dict of the result. -/
structure FormMetadata where
  total_pages : Nat
  form_name : String
deriving DecidableEq, Repr

/-- The result structure of `extract_form_fields`. -/
structure FormStructure where
  fields : List Field
  metadata : FormMetadata
deriving DecidableEq, Repr

/-- Python `text.split('\n')`. -/
def splitNL : List Char → List (List Char)
  | [] => [[]]
  | c :: rest =>
    if c = '\n' then [] :: splitNL rest
    else
      match splitNL rest with
      | p :: ps => (c :: p) :: ps
      | [] => [[c]]

/-- Attach the current section (lines 156-157, 163-164, 180-181, 187-188):
the key is added only when `current_section` is truthy, i.e. set and
nonempty. -/
def tagSection (cs : Option String) (f : Field) : Field :=
  match cs with
  | some s => if s = "" then f else { f with sec := some s }
  | none => f

/-- The section-header test of line 144: `line.isupper() or
(len(line) > 3 and line.endswith(':'))`, on the stripped line. -/
def isHeadingL (line : List Char) : Bool :=
  pyIsUpperStr line || (decide (3 < line.length) && line.getLast? = some ':')

/-- Processing state: the current section and the field list built so far. -/
abbrev ExtractState := Option String × List Field

/-- The body of the per-line loop (lines 138-165). -/
def lineStep (st : ExtractState) (rawLine : List Char) : ExtractState :=
  let line := pyStripList rawLine
  if line.isEmpty then st
  else if isHeadingL line then
    let s := String.mk (cleanList line)
    (some s, st.2 ++ [⟨s, "section", .str "", none⟩])
  else
    (st.1, st.2 ++ (detect_checkbox_groups (String.mk line)).map (tagSection st.1)
      ++ (detect_text_fields (String.mk line)).map (tagSection st.1))

/-- `' '.join(str(cell) for cell in row if cell)` (line 176): keep the
truthy cells (present and nonempty) and join them with single spaces. -/
def rowTextL (row : List (Option String)) : List Char :=
  List.intercalate [' ']
    ((row.filterMap fun c =>
      match c with
      | some s => if s = "" then none else some s
      | none => none).map String.data)

/-- The body of the per-row loop (lines 172-189): empty rows and rows with
no truthy cell are skipped, otherwise the joined row text is scanned like
a line (with no heading check). -/
def rowStep (st : ExtractState) (row : List (Option String)) : ExtractState :=
  if row.isEmpty then st
  else if !(row.any fun c => match c with | some s => s ≠ "" | none => false) then st
  else
    let t := String.mk (rowTextL row)
    (st.1, st.2 ++ (detect_checkbox_groups t).map (tagSection st.1)
      ++ (detect_text_fields t).map (tagSection st.1))

/-- The body of the per-table loop (lines 168-189); empty tables are
skipped. -/
def tableStep (st : ExtractState) (table : List (List (Option String))) : ExtractState :=
  if table.isEmpty then st else table.foldl rowStep st

/-- One iteration of the page loop (lines 122-189): all lines of the page
text, then all tables. -/
def pageStep (st : ExtractState) (page : Page) : ExtractState :=
  page.tables.foldl tableStep ((splitNL page.text.data).foldl lineStep st)

/-- Form-name detection on page 1 (lines 130-135): the first of the first
three lines containing one of `form|formato|formulario` — equivalently,
containing `"form"`, since it is a prefix of the other two alternatives —
is recorded stripped. -/
def findFormName (lines : List (List Char)) : String :=
  match lines.find? (fun ln => containsSub "form".data (ln.map pyLowerChar)) with
  | some ln => String.mk (pyStripList ln)
  | none => ""

/-- `GenericPDFFormExtractor.extract_form_fields` (lines 105-198) on the
already-parsed pages: page count, form-name scan on page 1, the
line/table loops threading `current_section`, and the final
deduplication. -/
def extract_form_fields (pages : List Page) : FormStructure :=
  let formName :=
    match pages with
    | [] => ""
    | p :: _ => findFormName ((splitNL p.text.data).take 3)
  let st := pages.foldl pageStep (none, [])
  { fields := deduplicate_fields st.2
    metadata := { total_pages := pages.length, form_name := formName } }

/-- The shape invariant of every field dict the extractor builds: the
label comes out of `clean_field_name`, and the value is determined by the
type as in `detect_checkbox_groups` (`False`), `detect_text_fields`
(detected text for `"text"`, `None` otherwise) and the section branch
(`""`). -/
def GoodField (f : Field) : Prop :=
  clean_field_name f.label = f.label ∧
  (f.type = "text" → ∃ s, f.value = .str s) ∧
  (f.type = "checkbox" → f.value = .bool false ∨ f.value = .null) ∧
  ((f.type = "number" ∨ f.type = "date") → f.value = .null) ∧
  (f.type = "section" → f.value = .str "")

/-! ## Theorems

### Sanity checks against the concrete behaviour of the source -/

example : clean_field_name "Fecha de nacimiento:" = "fecha_de_nacimiento" := by decide
example : clean_field_name "DATOS GENERALES" = "datos_generales" := by decide
example : clean_field_name "Cantidad: 5" = "cantidad_5" := by decide
example : clean_field_name "_" = "" := by decide
example : clean_field_name "!!!" = "" := by decide
example : clean_field_name "Año" = "año" := by decide

example : determine_field_type "Edad" = "number" := by decide
example : determine_field_type "Fecha de nacimiento" = "date" := by decide
example : determine_field_type "Acepta terminos" = "checkbox" := by decide
example : determine_field_type "Juan" = "text" := by decide

example : cbScan "[ ] Acepta terminos".data = ["Acepta terminos".data] := by decide
example : p1Scan "Nombre: Juan".data = [("Nombre".data, "Juan".data)] := by decide
example : p5Scan "Nombre: Juan".data = ["Juan".data] := by decide
example : p1Scan "[ ] Cantidad: 5".data = [("[ ] Cantidad".data, "5".data)] := by decide
example : p2Scan "Ciudad ____ x".data = ["Ciudad ".data] := by decide
example : p3Scan "peso (kg)".data = ["kg".data] := by decide
example : p4Scan "Fuma [ ]".data = ["Fuma ".data] := by decide

example : detect_text_fields "Nombre: Juan" =
    [⟨"nombre", "text", .str "Juan", none⟩, ⟨"juan", "text", .str "", none⟩] := by decide
example : detect_checkbox_groups "[ ] Cantidad: 5" =
    [⟨"cantidad_5", "checkbox", .bool false, none⟩] := by decide
example : detect_text_fields "Edad: 30" = [⟨"edad", "number", .null, none⟩] := by decide

example :
    extract_form_fields [⟨"", [[[some "Nombre:", some "Juan"]]]⟩] =
    { fields := [⟨"nombre", "text", .str "Juan", none⟩,
                 ⟨"juan", "text", .str "", none⟩],
      metadata := { total_pages := 1, form_name := "" } } := by decide

/-! ### Character-level lemmas -/

theorem char_eq_of_toNat_eq {a b : Char} (h : a.toNat = b.toNat) : a = b := by
  rw [← Char.ofNat_toNat a, h, Char.ofNat_toNat]

theorem toNat_charOfNat {n : Nat} (h : n < 0xd800) : (Char.ofNat n).toNat = n := by
  simp [Char.ofNat, Char.toNat, Nat.isValidChar, h, Char.ofNatAux, UInt32.toNat,
    UInt32.ofNatCore]

theorem pyLowerChar_toNat (c : Char) : (pyLowerChar c).toNat = pyLowerN c.toNat := by
  unfold pyLowerChar pyLowerN
  dsimp only
  split_ifs with h1 h2
  · exact toNat_charOfNat (by omega)
  · exact toNat_charOfNat (by omega)
  · rfl

theorem pyLowerN_idem (n : Nat) : pyLowerN (pyLowerN n) = pyLowerN n := by
  unfold pyLowerN; split_ifs <;> omega

theorem pyLowerChar_idem (c : Char) : pyLowerChar (pyLowerChar c) = pyLowerChar c :=
  char_eq_of_toNat_eq (by rw [pyLowerChar_toNat, pyLowerChar_toNat, pyLowerN_idem])

theorem keptCharN_pyLowerN {n : Nat} (h : keptCharN n = true) :
    keptCharN (pyLowerN n) = true := by
  simp only [keptCharN, pyIsWordN, pyIsAsciiAlnumN, pyIsSpaceN, pyLowerN,
    Bool.or_eq_true, Bool.and_eq_true, decide_eq_true_eq] at h ⊢
  split_ifs <;> omega

theorem keptChar_pyLowerChar {c : Char} (h : keptChar c = true) :
    keptChar (pyLowerChar c) = true := by
  unfold keptChar at h ⊢; rw [pyLowerChar_toNat]; exact keptCharN_pyLowerN h

/-- A word character is not whitespace. -/
theorem pyIsWord_not_space {c : Char} (h : pyIsWord c = true) : pyIsSpace c = false := by
  unfold pyIsWord at h; unfold pyIsSpace
  simp only [pyIsWordN, pyIsAsciiAlnumN, pyIsSpaceN, Bool.or_eq_true, Bool.and_eq_true,
    decide_eq_true_eq, Bool.or_eq_false_iff, Bool.and_eq_false_iff,
    decide_eq_false_iff_not] at h ⊢
  omega

/-- Lowercasing a word character other than `'_'` yields a character that
is neither whitespace nor `'_'`. -/
theorem pyIsWord_lower_props {c : Char} (hw : pyIsWord c = true) (hne : c ≠ '_') :
    pyIsSpace (pyLowerChar c) = false ∧ pyLowerChar c ≠ '_' := by
  have hn : c.toNat ≠ 0x5f := fun h => hne (char_eq_of_toNat_eq (by rw [h]; rfl))
  unfold pyIsWord at hw
  simp only [pyIsWordN, pyIsAsciiAlnumN, Bool.or_eq_true, Bool.and_eq_true,
    decide_eq_true_eq] at hw
  constructor
  · unfold pyIsSpace; rw [pyLowerChar_toNat]
    simp only [pyIsSpaceN, pyLowerN, Bool.or_eq_false_iff, Bool.and_eq_false_iff,
      decide_eq_false_iff_not]
    split_ifs <;> omega
  · intro h
    have h2 : pyLowerN c.toNat = 0x5f := by
      rw [← pyLowerChar_toNat, h]; rfl
    unfold pyLowerN at h2
    split_ifs at h2 <;> omega

/-! ### List-level lemmas about the string pipeline -/

theorem mem_dropWhile_of_mem {p : Char → Bool} {l : List Char} {c : Char}
    (hm : c ∈ l) (hp : p c = false) : c ∈ l.dropWhile p := by
  induction l with
  | nil => cases hm
  | cons a t ih =>
    rw [List.dropWhile_cons]
    split_ifs with ha
    · rcases List.mem_cons.mp hm with h | h
      · rw [h] at hp; rw [hp] at ha; cases ha
      · exact ih h
    · exact hm

theorem dropWhile_eq_self_of_head {p : Char → Bool} {l : List Char}
    (h : ∀ c, l.head? = some c → p c = false) : l.dropWhile p = l := by
  cases l with
  | nil => rfl
  | cons a t => rw [List.dropWhile_cons, if_neg]; simp [h a rfl]

theorem head_dropWhile_false {p : Char → Bool} {l : List Char} {c : Char}
    (h : (List.dropWhile p l).head? = some c) : p c = false := by
  have h2 := List.head?_dropWhile_not p l
  rw [h] at h2
  exact h2

theorem prefix_head_eq {l1 l2 : List Char} (h : l1 <+: l2) (hne : l1 ≠ []) :
    l1.head? = l2.head? := by
  obtain ⟨t, ht⟩ := h
  cases l1 with
  | nil => exact absurd rfl hne
  | cons a t2 => rw [← ht]; rfl

theorem mem_pyStrip_of_mem {l : List Char} {c : Char}
    (hm : c ∈ l) (hs : pyIsSpace c = false) : c ∈ pyStripList l := by
  unfold pyStripList
  rw [List.mem_reverse]
  exact mem_dropWhile_of_mem (List.mem_reverse.mpr (mem_dropWhile_of_mem hm hs)) hs

theorem mem_of_mem_pyStrip {l : List Char} {c : Char} (hm : c ∈ pyStripList l) : c ∈ l := by
  unfold pyStripList at hm
  rw [List.mem_reverse] at hm
  exact (List.dropWhile_suffix _).subset (List.mem_reverse.mp ((List.dropWhile_suffix _).subset hm))

theorem pyStrip_eq_self {l : List Char} (h : ∀ c ∈ l, pyIsSpace c = false) :
    pyStripList l = l := by
  unfold pyStripList
  have e1 : l.dropWhile pyIsSpace = l :=
    dropWhile_eq_self_of_head fun c hc => h c (List.mem_of_mem_head? hc)
  rw [e1]
  have e2 : l.reverse.dropWhile pyIsSpace = l.reverse :=
    dropWhile_eq_self_of_head fun c hc => h c (by
      rw [List.head?_reverse] at hc
      exact List.mem_of_mem_getLast? hc)
  rw [e2, List.reverse_reverse]

theorem mem_subWs_or {l : List Char} {c : Char} (hm : c ∈ subWs l) :
    c = '_' ∨ (c ∈ l ∧ pyIsSpace c = false) := by
  induction l with
  | nil => cases hm
  | cons a t ih =>
    cases t with
    | nil =>
      unfold subWs at hm
      by_cases ha : pyIsSpace a
      · rw [if_pos ha] at hm
        exact Or.inl (List.mem_singleton.mp hm)
      · rw [if_neg ha] at hm
        rw [List.mem_singleton.mp hm]
        exact Or.inr ⟨List.mem_cons_self _ _, by simpa using ha⟩
    | cons b t2 =>
      unfold subWs at hm
      by_cases ha : pyIsSpace a
      · rw [if_pos ha] at hm
        by_cases hb : pyIsSpace b
        · rw [if_pos hb] at hm
          rcases ih hm with h | ⟨h1, h2⟩
          · exact Or.inl h
          · exact Or.inr ⟨List.mem_cons_of_mem _ h1, h2⟩
        · rw [if_neg hb] at hm
          rcases List.mem_cons.mp hm with h | h
          · exact Or.inl h
          · rcases ih h with h2 | ⟨h3, h4⟩
            · exact Or.inl h2
            · exact Or.inr ⟨List.mem_cons_of_mem _ h3, h4⟩
      · rw [if_neg ha] at hm
        rcases List.mem_cons.mp hm with h | h
        · rw [h]; exact Or.inr ⟨List.mem_cons_self _ _, by simpa using ha⟩
        · rcases ih h with h2 | ⟨h3, h4⟩
          · exact Or.inl h2
          · exact Or.inr ⟨List.mem_cons_of_mem _ h3, h4⟩

theorem mem_subWs_of_mem {l : List Char} {c : Char}
    (hm : c ∈ l) (hs : pyIsSpace c = false) : c ∈ subWs l := by
  induction l with
  | nil => cases hm
  | cons a t ih =>
    have hca : c = a → pyIsSpace a = false := fun h => by rw [← h]; exact hs
    cases t with
    | nil =>
      have h1 : c = a := List.mem_singleton.mp hm
      unfold subWs
      rw [if_neg (by rw [hca h1]; simp)]
      rw [h1]; exact List.mem_singleton.mpr rfl
    | cons b t2 =>
      unfold subWs
      by_cases ha : pyIsSpace a
      · have hct : c ∈ b :: t2 := by
          rcases List.mem_cons.mp hm with h | h
          · rw [hca h] at ha; cases ha
          · exact h
        rw [if_pos ha]
        by_cases hb : pyIsSpace b
        · rw [if_pos hb]; exact ih hct
        · rw [if_neg hb]; exact List.mem_cons_of_mem _ (ih hct)
      · rw [if_neg ha]
        rcases List.mem_cons.mp hm with h | h
        · rw [h]; exact List.mem_cons_self _ _
        · exact List.mem_cons_of_mem _ (ih h)

theorem subWs_eq_self {l : List Char} (h : ∀ c ∈ l, pyIsSpace c = false) :
    subWs l = l := by
  induction l with
  | nil => rfl
  | cons a t ih =>
    have ha : pyIsSpace a = false := h a (List.mem_cons_self a t)
    cases t with
    | nil => unfold subWs; rw [if_neg (by rw [ha]; simp)]
    | cons b t2 =>
      unfold subWs
      rw [if_neg (by rw [ha]; simp)]
      rw [ih fun c hc => h c (List.mem_cons_of_mem _ hc)]

theorem mem_stripU_of_mem {l : List Char} {c : Char}
    (hm : c ∈ l) (hne : c ≠ '_') : c ∈ stripUnderscore l := by
  unfold stripUnderscore
  rw [List.mem_reverse]
  exact mem_dropWhile_of_mem
    (List.mem_reverse.mpr (mem_dropWhile_of_mem hm (decide_eq_false hne)))
    (decide_eq_false hne)

theorem mem_of_mem_stripU {l : List Char} {c : Char} (hm : c ∈ stripUnderscore l) : c ∈ l := by
  unfold stripUnderscore at hm
  rw [List.mem_reverse] at hm
  exact (List.dropWhile_suffix _).subset (List.mem_reverse.mp ((List.dropWhile_suffix _).subset hm))

theorem stripU_head_ne {l : List Char} {c : Char}
    (h : (stripUnderscore l).head? = some c) : c ≠ '_' := by
  unfold stripUnderscore at h
  have hpre : ((l.dropWhile fun c => c = '_').reverse.dropWhile fun c => c = '_').reverse <+:
      (l.dropWhile fun c => c = '_') := by
    have h1 := List.reverse_prefix.mpr
      (List.dropWhile_suffix (l := (l.dropWhile fun c => c = '_').reverse)
        (fun c => decide (c = '_')))
    rwa [List.reverse_reverse] at h1
  have hne : ((l.dropWhile fun c => c = '_').reverse.dropWhile fun c => c = '_').reverse ≠ [] := by
    intro h0; rw [h0] at h; cases h
  have h2 := prefix_head_eq hpre hne
  rw [h] at h2
  have h3 := head_dropWhile_false h2.symm
  simpa using h3

theorem stripU_getLast_ne {l : List Char} {c : Char}
    (h : (stripUnderscore l).getLast? = some c) : c ≠ '_' := by
  unfold stripUnderscore at h
  rw [List.getLast?_reverse] at h
  have h2 := head_dropWhile_false h
  simpa using h2

theorem stripU_eq_self {l : List Char}
    (h1 : ∀ c, l.head? = some c → c ≠ '_')
    (h2 : ∀ c, l.getLast? = some c → c ≠ '_') : stripUnderscore l = l := by
  unfold stripUnderscore
  rw [dropWhile_eq_self_of_head fun c hc => decide_eq_false (h1 c hc)]
  rw [dropWhile_eq_self_of_head fun c hc =>
    decide_eq_false (h2 c (by rwa [List.head?_reverse] at hc))]
  exact List.reverse_reverse l

theorem map_eq_self_of {f : Char → Char} {l : List Char} (h : ∀ c ∈ l, f c = c) :
    l.map f = l := by
  rw [List.map_congr_left h]; simp

/-! ### The sanitizer: idempotence and output characters -/

theorem pyIsWord_keptChar {c : Char} (h : pyIsWord c = true) : keptChar c = true := by
  unfold pyIsWord at h; unfold keptChar
  simp only [keptCharN, Bool.or_eq_true]
  exact Or.inl (Or.inl h)

/-- Every character of a sanitized string is in the kept class, is not
whitespace, and is fixed by lowercasing. -/
theorem mem_cleanList_good {l : List Char} {c : Char} (hm : c ∈ cleanList l) :
    keptChar c = true ∧ pyIsSpace c = false ∧ pyLowerChar c = c := by
  unfold cleanList at hm
  have hm2 := mem_of_mem_stripU hm
  rcases mem_subWs_or hm2 with h | ⟨hmem, hns⟩
  · rw [h]
    refine ⟨by decide, by decide, ?_⟩
    apply char_eq_of_toNat_eq
    rw [pyLowerChar_toNat]
    decide
  · have hm3 := mem_of_mem_pyStrip hmem
    obtain ⟨d, hd, hdc⟩ := List.mem_map.mp hm3
    have hkept : keptChar d = true := by
      obtain ⟨e, _, hed⟩ := List.mem_map.mp hd
      by_cases hk : keptChar e
      · rw [← hed, if_pos hk]; exact hk
      · rw [← hed, if_neg hk]; decide
    rw [← hdc]
    exact ⟨keptChar_pyLowerChar hkept, by rw [hdc]; exact hns, pyLowerChar_idem d⟩

/-- A string whose characters are all kept, non-whitespace and
lowercase-fixed, and which neither starts nor ends with an underscore, is
a fixed point of the sanitizer. -/
theorem cleanList_eq_self {m : List Char}
    (hg : ∀ c ∈ m, keptChar c = true ∧ pyIsSpace c = false ∧ pyLowerChar c = c)
    (hh : ∀ c, m.head? = some c → c ≠ '_')
    (hl : ∀ c, m.getLast? = some c → c ≠ '_') :
    cleanList m = m := by
  unfold cleanList
  have e1 : m.map (fun c => if keptChar c then c else ' ') = m :=
    map_eq_self_of fun c hc => if_pos ((hg c hc).1)
  rw [e1]
  have e2 : m.map pyLowerChar = m := map_eq_self_of fun c hc => (hg c hc).2.2
  rw [e2]
  rw [pyStrip_eq_self fun c hc => (hg c hc).2.1]
  rw [subWs_eq_self fun c hc => (hg c hc).2.1]
  exact stripU_eq_self hh hl

theorem cleanList_idem (l : List Char) : cleanList (cleanList l) = cleanList l := by
  apply cleanList_eq_self
  · exact fun c hc => mem_cleanList_good hc
  · intro c hc
    unfold cleanList at hc
    exact stripU_head_ne hc
  · intro c hc
    unfold cleanList at hc
    exact stripU_getLast_ne hc

theorem clean_field_name_idem (s : String) :
    clean_field_name (clean_field_name s) = clean_field_name s := by
  unfold clean_field_name
  rw [show (String.mk (cleanList s.data)).data = cleanList s.data from rfl]
  rw [cleanList_idem]

/-- A word character other than `'_'` survives the whole sanitizer
pipeline (as its lowercase form), so the output is nonempty. -/
theorem cleanList_ne_nil {l : List Char} {c : Char}
    (hm : c ∈ l) (hw : pyIsWord c = true) (hne : c ≠ '_') : cleanList l ≠ [] := by
  obtain ⟨hns, hnu⟩ := pyIsWord_lower_props hw hne
  unfold cleanList
  intro h0
  have hk : keptChar c = true := pyIsWord_keptChar hw
  have h1 : (pyLowerChar c) ∈ (l.map fun c => if keptChar c then c else ' ').map pyLowerChar :=
    List.mem_map_of_mem _ (List.mem_map.mpr ⟨c, hm, if_pos hk⟩)
  have h3 := mem_pyStrip_of_mem h1 hns
  have h4 := mem_subWs_of_mem h3 hns
  have h5 := mem_stripU_of_mem h4 hnu
  rw [h0] at h5
  cases h5

/-- Sanitized strings are fixed points of the sanitizer. -/
theorem clean_fix (x : List Char) :
    clean_field_name (String.mk (cleanList x)) = String.mk (cleanList x) := by
  unfold clean_field_name
  rw [show (String.mk (cleanList x)).data = cleanList x from rfl, cleanList_idem]

/-! ### Deduplication -/

theorem dedupAux_subset {l : List Field} {seen : List String} {f : Field}
    (hm : f ∈ dedupAux seen l) : f ∈ l := by
  induction l generalizing seen with
  | nil => cases hm
  | cons a t ih =>
    unfold dedupAux at hm
    split_ifs at hm with h
    · exact List.mem_cons_of_mem _ (ih hm)
    · rcases List.mem_cons.mp hm with h2 | h2
      · rw [h2]; exact List.mem_cons_self _ _
      · exact List.mem_cons_of_mem _ (ih h2)

theorem dedupAux_not_seen {l : List Field} {seen : List String} {f : Field}
    (hm : f ∈ dedupAux seen l) : field_key f ∉ seen := by
  induction l generalizing seen with
  | nil => cases hm
  | cons a t ih =>
    unfold dedupAux at hm
    split_ifs at hm with h
    · exact ih hm
    · rcases List.mem_cons.mp hm with h2 | h2
      · rw [h2]; exact h
      · exact fun hc => ih h2 (List.mem_cons_of_mem _ hc)

theorem dedupAux_pairwise (l : List Field) (seen : List String) :
    (dedupAux seen l).Pairwise fun a b => field_key a ≠ field_key b := by
  induction l generalizing seen with
  | nil => exact List.Pairwise.nil
  | cons a t ih =>
    unfold dedupAux
    split_ifs with h
    · exact ih seen
    · refine List.Pairwise.cons ?_ (ih _)
      intro b hb hc
      exact dedupAux_not_seen hb (by rw [← hc]; exact List.mem_cons_self _ _)

theorem dedupAux_eq_self {l : List Field} {seen : List String}
    (hp : l.Pairwise fun a b => field_key a ≠ field_key b)
    (hs : ∀ f ∈ l, field_key f ∉ seen) : dedupAux seen l = l := by
  induction l generalizing seen with
  | nil => rfl
  | cons a t ih =>
    unfold dedupAux
    rw [if_neg (hs a (List.mem_cons_self _ _))]
    rw [ih (List.pairwise_cons.mp hp).2]
    intro f hf hc
    rcases List.mem_cons.mp hc with h2 | h2
    · exact (List.pairwise_cons.mp hp).1 f hf h2.symm
    · exact hs f (List.mem_cons_of_mem _ hf) h2

theorem deduplicate_pairwise (l : List Field) :
    (deduplicate_fields l).Pairwise fun a b => field_key a ≠ field_key b :=
  dedupAux_pairwise l []

theorem deduplicate_idem (l : List Field) :
    deduplicate_fields (deduplicate_fields l) = deduplicate_fields l :=
  dedupAux_eq_self (deduplicate_pairwise l) (fun _ _ hc => by cases hc)

theorem deduplicate_subset {l : List Field} {f : Field}
    (hm : f ∈ deduplicate_fields l) : f ∈ l :=
  dedupAux_subset hm

/-! ### Shape of every field the pipeline builds -/

theorem determine_ne_section (label : String) : determine_field_type label ≠ "section" := by
  unfold determine_field_type
  dsimp only
  split_ifs <;> decide

theorem goodField_cb {t : String} {f : Field} (hm : f ∈ detect_checkbox_groups t) :
    GoodField f := by
  unfold detect_checkbox_groups at hm
  rw [List.mem_filterMap] at hm
  obtain ⟨g, _, hg⟩ := hm
  dsimp only at hg
  split_ifs at hg with h1
  rw [Option.some.injEq] at hg
  subst hg
  have e1 : ("checkbox" : String) ≠ "text" := by decide
  have e2 : ("checkbox" : String) ≠ "number" := by decide
  have e3 : ("checkbox" : String) ≠ "date" := by decide
  have e4 : ("checkbox" : String) ≠ "section" := by decide
  exact ⟨clean_fix _, fun h => absurd h e1, fun _ => Or.inl rfl,
    fun h => by rcases h with h | h
                exact absurd h e2
                exact absurd h e3,
    fun h => absurd h e4⟩

theorem goodField_mkText {a b : List Char} {f : Field} (h : mkTextField a b = some f) :
    GoodField f := by
  unfold mkTextField at h
  dsimp only at h
  split_ifs at h with h1 h2 h3
  · rw [Option.some.injEq] at h
    subst h
    refine ⟨clean_fix _, fun _ => ⟨_, rfl⟩, ?_, ?_, ?_⟩
    · intro hT
      exact absurd (hT.symm.trans h3) (by decide)
    · intro hT
      rcases hT with hT | hT <;> exact absurd (hT.symm.trans h3) (by decide)
    · intro hT
      exact absurd (hT.symm.trans h3) (by decide)
  · rw [Option.some.injEq] at h
    subst h
    refine ⟨clean_fix _, ?_, fun _ => Or.inr rfl, fun _ => rfl, ?_⟩
    · intro hT
      exact absurd hT h3
    · intro hT
      exact absurd hT (determine_ne_section _)

theorem goodField_tf {t : String} {f : Field} (hm : f ∈ detect_text_fields t) :
    GoodField f := by
  unfold detect_text_fields at hm
  rcases List.mem_append.mp hm with h | h
  · rcases List.mem_append.mp h with h | h
    · rcases List.mem_append.mp h with h | h
      · rcases List.mem_append.mp h with h | h
        · obtain ⟨g, _, hg⟩ := List.mem_filterMap.mp h
          exact goodField_mkText hg
        · obtain ⟨g, _, hg⟩ := List.mem_filterMap.mp h
          exact goodField_mkText hg
      · obtain ⟨g, _, hg⟩ := List.mem_filterMap.mp h
        exact goodField_mkText hg
    · obtain ⟨g, _, hg⟩ := List.mem_filterMap.mp h
      exact goodField_mkText hg
  · obtain ⟨g, _, hg⟩ := List.mem_filterMap.mp h
    exact goodField_mkText hg

theorem goodField_tag {cs : Option String} {f : Field} (h : GoodField f) :
    GoodField (tagSection cs f) := by
  cases cs with
  | none => exact h
  | some s =>
    show GoodField (if s = "" then f else { f with sec := some s })
    split_ifs with h1
    · exact h
    · exact h

theorem goodField_lineStep {st : ExtractState} {ln : List Char}
    (hinv : ∀ f ∈ st.2, GoodField f) : ∀ f ∈ (lineStep st ln).2, GoodField f := by
  unfold lineStep
  dsimp only
  split_ifs with h1 h2
  · exact hinv
  · intro f hf
    rcases List.mem_append.mp hf with h | h
    · exact hinv f h
    · rw [List.mem_singleton] at h
      subst h
      have e1 : ("section" : String) ≠ "text" := by decide
      have e2 : ("section" : String) ≠ "checkbox" := by decide
      have e3 : ("section" : String) ≠ "number" := by decide
      have e4 : ("section" : String) ≠ "date" := by decide
      exact ⟨clean_fix _, fun h => absurd h e1, fun h => absurd h e2,
        fun h => by rcases h with h | h
                    exact absurd h e3
                    exact absurd h e4,
        fun _ => rfl⟩
  · intro f hf
    rcases List.mem_append.mp hf with h | h
    · rcases List.mem_append.mp h with h | h
      · exact hinv f h
      · obtain ⟨g, hg, hfg⟩ := List.mem_map.mp h
        rw [← hfg]
        exact goodField_tag (goodField_cb hg)
    · obtain ⟨g, hg, hfg⟩ := List.mem_map.mp h
      rw [← hfg]
      exact goodField_tag (goodField_tf hg)

theorem goodField_rowStep {st : ExtractState} {row : List (Option String)}
    (hinv : ∀ f ∈ st.2, GoodField f) : ∀ f ∈ (rowStep st row).2, GoodField f := by
  unfold rowStep
  dsimp only
  split_ifs with h1 h2
  · exact hinv
  · exact hinv
  · intro f hf
    rcases List.mem_append.mp hf with h | h
    · rcases List.mem_append.mp h with h | h
      · exact hinv f h
      · obtain ⟨g, hg, hfg⟩ := List.mem_map.mp h
        rw [← hfg]
        exact goodField_tag (goodField_cb hg)
    · obtain ⟨g, hg, hfg⟩ := List.mem_map.mp h
      rw [← hfg]
      exact goodField_tag (goodField_tf hg)

theorem goodField_foldl_rows {rows : List (List (Option String))} {st : ExtractState}
    (hinv : ∀ f ∈ st.2, GoodField f) :
    ∀ f ∈ (rows.foldl rowStep st).2, GoodField f := by
  induction rows generalizing st with
  | nil => exact hinv
  | cons r t ih => exact ih (goodField_rowStep hinv)

theorem goodField_tableStep {st : ExtractState} {table : List (List (Option String))}
    (hinv : ∀ f ∈ st.2, GoodField f) : ∀ f ∈ (tableStep st table).2, GoodField f := by
  unfold tableStep
  split_ifs with h1
  · exact hinv
  · exact goodField_foldl_rows hinv

theorem goodField_foldl_tables {tables : List (List (List (Option String)))}
    {st : ExtractState} (hinv : ∀ f ∈ st.2, GoodField f) :
    ∀ f ∈ (tables.foldl tableStep st).2, GoodField f := by
  induction tables generalizing st with
  | nil => exact hinv
  | cons a t ih => exact ih (goodField_tableStep hinv)

theorem goodField_foldl_lines {lines : List (List Char)} {st : ExtractState}
    (hinv : ∀ f ∈ st.2, GoodField f) :
    ∀ f ∈ (lines.foldl lineStep st).2, GoodField f := by
  induction lines generalizing st with
  | nil => exact hinv
  | cons a t ih => exact ih (goodField_lineStep hinv)

theorem goodField_pageStep {st : ExtractState} {page : Page}
    (hinv : ∀ f ∈ st.2, GoodField f) : ∀ f ∈ (pageStep st page).2, GoodField f := by
  unfold pageStep
  exact goodField_foldl_tables (goodField_foldl_lines hinv)

theorem goodField_foldl_pages {pages : List Page} {st : ExtractState}
    (hinv : ∀ f ∈ st.2, GoodField f) :
    ∀ f ∈ (pages.foldl pageStep st).2, GoodField f := by
  induction pages generalizing st with
  | nil => exact hinv
  | cons a t ih => exact ih (goodField_pageStep hinv)

/-- Every field of the final structure has the shape its construction
site gives it. -/
theorem extract_fields_good {pages : List Page} {f : Field}
    (hm : f ∈ (extract_form_fields pages).fields) : GoodField f := by
  unfold extract_form_fields at hm
  dsimp only at hm
  exact goodField_foldl_pages (fun g hg => by cases hg) f (deduplicate_subset hm)

/-! ### Section tracking when no heading occurs -/

theorem cb_sec_none {t : String} {f : Field} (hm : f ∈ detect_checkbox_groups t) :
    f.sec = none := by
  unfold detect_checkbox_groups at hm
  obtain ⟨g, _, hg⟩ := List.mem_filterMap.mp hm
  dsimp only at hg
  split_ifs at hg
  rw [Option.some.injEq] at hg
  subst hg
  rfl

theorem mkText_sec_none {a b : List Char} {f : Field} (h : mkTextField a b = some f) :
    f.sec = none := by
  unfold mkTextField at h
  dsimp only at h
  split_ifs at h <;> (rw [Option.some.injEq] at h; subst h; rfl)

theorem tf_sec_none {t : String} {f : Field} (hm : f ∈ detect_text_fields t) :
    f.sec = none := by
  unfold detect_text_fields at hm
  rcases List.mem_append.mp hm with h | h
  · rcases List.mem_append.mp h with h | h
    · rcases List.mem_append.mp h with h | h
      · rcases List.mem_append.mp h with h | h
        · obtain ⟨g, _, hg⟩ := List.mem_filterMap.mp h
          exact mkText_sec_none hg
        · obtain ⟨g, _, hg⟩ := List.mem_filterMap.mp h
          exact mkText_sec_none hg
      · obtain ⟨g, _, hg⟩ := List.mem_filterMap.mp h
        exact mkText_sec_none hg
    · obtain ⟨g, _, hg⟩ := List.mem_filterMap.mp h
      exact mkText_sec_none hg
  · obtain ⟨g, _, hg⟩ := List.mem_filterMap.mp h
    exact mkText_sec_none hg

theorem lineStep_sections {st : ExtractState} {ln : List Char}
    (hcs : st.1 = none) (hinv : ∀ f ∈ st.2, f.sec = none)
    (hhead : isHeadingL (pyStripList ln) = false) :
    (lineStep st ln).1 = none ∧ ∀ f ∈ (lineStep st ln).2, f.sec = none := by
  unfold lineStep
  dsimp only
  split_ifs with h1 h2
  · exact ⟨hcs, hinv⟩
  · rw [hhead] at h2
    cases h2
  · refine ⟨hcs, ?_⟩
    intro f hf
    rcases List.mem_append.mp hf with h | h
    · rcases List.mem_append.mp h with h | h
      · exact hinv f h
      · obtain ⟨g, hg, hfg⟩ := List.mem_map.mp h
        rw [← hfg, hcs]
        exact cb_sec_none hg
    · obtain ⟨g, hg, hfg⟩ := List.mem_map.mp h
      rw [← hfg, hcs]
      exact tf_sec_none hg

theorem foldl_lineStep_sections {lines : List (List Char)} {st : ExtractState}
    (hcs : st.1 = none) (hinv : ∀ f ∈ st.2, f.sec = none)
    (hhead : ∀ l ∈ lines, isHeadingL (pyStripList l) = false) :
    (lines.foldl lineStep st).1 = none ∧
    ∀ f ∈ (lines.foldl lineStep st).2, f.sec = none := by
  induction lines generalizing st with
  | nil => exact ⟨hcs, hinv⟩
  | cons a t ih =>
    obtain ⟨hc2, hi2⟩ := lineStep_sections hcs hinv (hhead a (List.mem_cons_self _ _))
    exact ih hc2 hi2 fun l hl => hhead l (List.mem_cons_of_mem _ hl)

/-- On a single page without tables, `extract_form_fields` is the line
fold followed by deduplication. -/
theorem extract_single_page (text : String) :
    (extract_form_fields [⟨text, []⟩]).fields =
    deduplicate_fields ((splitNL text.data).foldl lineStep (none, [])).2 := rfl

/-! ## Claims -/

/-- C1, counterexample: the one-page extraction of
`"Nombre: Juan\nFecha de nacimiento: \n[ ] Acepta terminos"` does **not**
produce exactly three fields — it produces four. -/
theorem C1_counterexample :
    (extract_form_fields
      [⟨"Nombre: Juan\nFecha de nacimiento: \n[ ] Acepta terminos", []⟩]).fields.length ≠ 3 := by
  decide

/-- C1, amended: the extraction yields exactly four fields — `nombre`
(text, value `"Juan"`), `juan` (text, value `""`, from the keyword
pattern whose single group is the trailing text), `fecha_de_nacimiento`
(a `section` field: the stripped line ends in `':'` and is longer than 3,
so it is treated as a heading), and `acepta_terminos` (checkbox, `false`,
tagged with section `fecha_de_nacimiento`) — and
`metadata.total_pages = 1`. -/
theorem C1_amended :
    extract_form_fields
      [⟨"Nombre: Juan\nFecha de nacimiento: \n[ ] Acepta terminos", []⟩] =
    { fields := [⟨"nombre", "text", .str "Juan", none⟩,
                 ⟨"juan", "text", .str "", none⟩,
                 ⟨"fecha_de_nacimiento", "section", .str "", none⟩,
                 ⟨"acepta_terminos", "checkbox", .bool false, some "fecha_de_nacimiento"⟩],
      metadata := { total_pages := 1, form_name := "" } } := by
  decide

/-- C2, counterexample: the line `"Edad: 30"` produces a `number` field
whose value is `None`, not a string. -/
theorem C2_counterexample :
    ∃ f ∈ (extract_form_fields [⟨"Edad: 30", []⟩]).fields,
      f.type = "number" ∧ ∀ s, f.value ≠ .str s := by
  refine ⟨⟨"edad", "number", .null, none⟩, by decide, rfl, ?_⟩
  intro s h
  cases h

/-- C2, amended: in every extraction result, `text` fields carry a string
value (possibly empty), `checkbox` fields carry `false` (glyph-detected)
or `None` (keyword-classified by the text-field detector), `number` and
`date` fields always carry `None`, and `section` fields carry `""`. -/
theorem C2_amended (pages : List Page) :
    ∀ f ∈ (extract_form_fields pages).fields,
      (f.type = "text" → ∃ s, f.value = .str s) ∧
      (f.type = "checkbox" → f.value = .bool false ∨ f.value = .null) ∧
      ((f.type = "number" ∨ f.type = "date") → f.value = .null) ∧
      (f.type = "section" → f.value = .str "") :=
  fun _ hm => (extract_fields_good hm).2

/-- C2, witness: the `edad` field of the `"Edad: 30"` page is in the
output and its value is `None`. -/
theorem C2_witness :
    (⟨"edad", "number", .null, none⟩ : Field) ∈
      (extract_form_fields [⟨"Edad: 30", []⟩]).fields ∧
    (⟨"edad", "number", .null, none⟩ : Field).value = .null :=
  ⟨by decide, (C2_amended [⟨"Edad: 30", []⟩] ⟨"edad", "number", .null, none⟩
    (by decide)).2.2.1 (Or.inl rfl)⟩

/-- C3, counterexample: for the lines
`["DATOS GENERALES", "Nombre: ", "Edad: 30"]` no field labelled `nombre`
carries section `datos_generales` — the stripped line `"Nombre:"` ends in
`':'` and is itself treated as a heading. -/
theorem C3_counterexample :
    ¬ ∃ f ∈ (extract_form_fields [⟨"DATOS GENERALES\nNombre: \nEdad: 30", []⟩]).fields,
      f.label = "nombre" ∧ f.sec = some "datos_generales" := by
  decide

/-- C3, amended: `"DATOS GENERALES"` opens section `datos_generales`, but
`"Nombre: "` (stripped, ending in `':'`, longer than 3) becomes a heading
itself: it yields a `section` field labelled `nombre` and resets the
current section, so the `edad` field carries section `"nombre"`.  The
second half of the claim stands: in a page none of whose lines qualifies
as a heading, every extracted field carries no section key. -/
theorem C3_amended :
    ((extract_form_fields [⟨"DATOS GENERALES\nNombre: \nEdad: 30", []⟩]).fields =
      [⟨"datos_generales", "section", .str "", none⟩,
       ⟨"nombre", "section", .str "", none⟩,
       ⟨"edad", "number", .null, some "nombre"⟩]) ∧
    ∀ (text : String), (∀ l ∈ splitNL text.data, isHeadingL (pyStripList l) = false) →
      ∀ f ∈ (extract_form_fields [⟨text, []⟩]).fields, f.sec = none := by
  constructor
  · decide
  · intro text hhead f hf
    rw [extract_single_page] at hf
    exact (foldl_lineStep_sections rfl (fun g hg => by cases hg) hhead).2 f
      (deduplicate_subset hf)

/-- C3, witness: the page `"Edad: 30"` has no heading line, and its one
field carries no section key. -/
theorem C3_witness :
    (∀ l ∈ splitNL ("Edad: 30" : String).data, isHeadingL (pyStripList l) = false) ∧
    ∀ f ∈ (extract_form_fields [⟨"Edad: 30", []⟩]).fields, f.sec = none :=
  ⟨by decide, C3_amended.2 "Edad: 30" (by decide)⟩

/-- C4, counterexample: the line `"Nombre: Juan"` yields two fields from
the text-field detector, not at most one. -/
theorem C4_counterexample : 1 < (detect_text_fields "Nombre: Juan").length := by
  decide

/-- C4, amended: `detect_text_fields` applies **every** pattern to the
line and concatenates all their matches (there is no first-match cut), so
a single line can produce several fields: `"Nombre: Juan"` produces the
colon-pattern field `nombre` and the keyword-pattern field `juan`. -/
theorem C4_amended :
    detect_text_fields "Nombre: Juan" =
      [⟨"nombre", "text", .str "Juan", none⟩, ⟨"juan", "text", .str "", none⟩] := by
  decide

/-- C5, counterexample: `determine_field_type` has no glyph branch: on a
text containing the checkbox glyph `[ ]` and the quantity keyword
`cantidad` it returns `"number"`, not `"checkbox"`. -/
theorem C5_counterexample :
    containsSub "[ ]".data "[ ] Cantidad".data = true ∧
    determine_field_type "[ ] Cantidad" = "number" := by
  decide

/-- C5, amended: the type inferrer itself checks only keywords (date →
number → yes/no), with no glyph branch; the line `"[ ] Cantidad: 5"` is
nevertheless classified `checkbox` by the pipeline, because the text-field
detector drops any raw label containing a glyph character and the checkbox
detector captures the line. -/
theorem C5_amended :
    determine_field_type "[ ] Cantidad" = "number" ∧
    (extract_form_fields [⟨"[ ] Cantidad: 5", []⟩]).fields =
      [⟨"cantidad_5", "checkbox", .bool false, none⟩] := by
  decide

/-- C6, counterexample: a table whose first row is `["Nombre:", "Juan"]`
(every cell nonempty) is **not** skipped as a header — it is scanned and
emits fields. -/
theorem C6_counterexample :
    (extract_form_fields [⟨"", [[[some "Nombre:", some "Juan"]]]⟩]).fields ≠ [] := by
  decide

/-- C6, amended: the code performs no header-row detection and no field
ever carries a table-column tag (the field dict has no such key): every
row with at least one truthy cell — the first row included — is joined
with single spaces and scanned exactly like a line. -/
theorem C6_amended :
    ((extract_form_fields [⟨"", [[[some "Nombre:", some "Juan"]]]⟩]).fields =
      [⟨"nombre", "text", .str "Juan", none⟩, ⟨"juan", "text", .str "", none⟩]) ∧
    ((extract_form_fields
        [⟨"", [[[some "Campo", some "Valor"], [some "Nombre:", some "Juan"]]]⟩]).fields =
      [⟨"nombre", "text", .str "Juan", none⟩, ⟨"juan", "text", .str "", none⟩]) := by
  decide

/-- C7: after deduplication no two output fields share the identity key
(label and type, extended with the section when present), and
deduplicating a second time changes nothing. -/
theorem C7_dedup_unique_idem (l : List Field) :
    ((deduplicate_fields l).Pairwise fun a b =>
      ¬(a.label = b.label ∧ a.type = b.type ∧ a.sec = b.sec)) ∧
    deduplicate_fields (deduplicate_fields l) = deduplicate_fields l := by
  constructor
  · refine (deduplicate_pairwise l).imp ?_
    intro a b h hc
    exact h (by unfold field_key; rw [hc.1, hc.2.1, hc.2.2])
  · exact deduplicate_idem l

/-- C8: the label sanitizer is idempotent on every string (over the
ASCII/Latin-1 character model). -/
theorem C8_sanitize_idempotent (x : String) :
    clean_field_name (clean_field_name x) = clean_field_name x :=
  clean_field_name_idem x

/-- C9, counterexample: `"_"` is nonempty and consists of a word
character, yet the sanitizer maps it to the empty string (the final
`strip('_')` removes it). -/
theorem C9_counterexample :
    ("_" : String) ≠ "" ∧ pyIsWord '_' = true ∧ clean_field_name "_" = "" := by
  exact ⟨by decide, by decide, by decide⟩

/-- C9, amended: the sanitizer is total (it is a function in the model),
and every input containing at least one word character **other than
underscore** sanitizes to a nonempty string. -/
theorem C9_amended (s : String) (h : ∃ c ∈ s.data, pyIsWord c = true ∧ c ≠ '_') :
    clean_field_name s ≠ "" := by
  obtain ⟨c, hm, hw, hne⟩ := h
  intro h0
  exact cleanList_ne_nil hm hw hne (congrArg String.data h0)

/-- C9, witness: `"a b"` contains the word character `'a'` and sanitizes
to a nonempty string. -/
theorem C9_witness :
    (∃ c ∈ ("a b" : String).data, pyIsWord c = true ∧ c ≠ '_') ∧
    clean_field_name "a b" ≠ "" :=
  ⟨by decide, C9_amended "a b" (by decide)⟩

/-- C10, counterexample: the page `"!!!: x"` produces a field whose label
is the empty string — the raw label `"!!!"` is nonempty (so it passes the
pre-sanitization check) but sanitizes to `""`. -/
theorem C10_counterexample :
    ∃ f ∈ (extract_form_fields [⟨"!!!: x", []⟩]).fields, f.label = "" := by
  decide

/-- C10, amended: every label in the final deduplicated field list is a
fixed point of the sanitizer (so it contains no whitespace and no
surrounding underscores), but it may be empty: non-emptiness is checked
on the raw label before sanitization, not after. -/
theorem C10_amended (pages : List Page) :
    ∀ f ∈ (extract_form_fields pages).fields, clean_field_name f.label = f.label :=
  fun _ hm => (extract_fields_good hm).1

/-- C10, witness: the `edad` field extracted from `"Edad: 30"` has a
sanitizer-stable label. -/
theorem C10_witness :
    (⟨"edad", "number", .null, none⟩ : Field) ∈
      (extract_form_fields [⟨"Edad: 30", []⟩]).fields ∧
    clean_field_name "edad" = "edad" :=
  ⟨by decide, C10_amended [⟨"Edad: 30", []⟩] ⟨"edad", "number", .null, none⟩ (by decide)⟩

end PdfForm
